import Mathlib

/-!
# Verification of `src/vw/Plate/platereduce.cc`

A shallow embedding of the plate-reduce tool: the `WeightedAverage`
reducer, the work-unit partition/assignment logic of `do_run`, the
per-cell aggregation loop of `apply_reduce`, and the pixel-format
dispatch table of `do_run`.

Pixel channel values are embedded as rationals (`ℚ`).  The Vision
Workbench image-operation library (`ImageView` arithmetic,
`channel_cast`, `select_channel`, `threshold`, `bbox_tiles`) is part of
this repository but absent from `src/`; those operations are modelled
from the spec (each such definition carries a `Modelled from the spec:`
doc comment).  The floating accumulator of the spec is modelled as exact
rational arithmetic; the one floating-point effect the claims mention —
division by a zero summed weight producing no defined value (NaN) — is
modelled explicitly by an `Option ℚ` result.
-/

namespace PlateReduce

/-- A pixel buffer (`ImageView<PixelT>`): a `cols × rows` grid of pixels
with `channels` channels per pixel; channel `channels - 1` is the
alpha/coverage channel.  Channel values are embedded as rationals. -/
structure PixelBuffer where
  cols : ℕ
  rows : ℕ
  channels : ℕ
  data : ℕ → ℕ → ℕ → ℚ

instance : Inhabited PixelBuffer := ⟨⟨0, 0, 0, fun _ _ _ => 0⟩⟩

/-- The native channel type of a run (`PixelChannelType<PixelT>::type`):
its `ChannelRange` minimum and maximum and the cast from the floating
accumulator back to the native type. -/
structure ChannelSpec where
  cmin : ℚ
  cmax : ℚ
  cast : ℚ → ℚ

/-- Modelled from the spec: the cast from the `float32` accumulator back
to an integral native channel type; the spec's worked example computes
`round((100·200 + 50·0)/150) = 133`, so the cast rounds to the nearest
integer (modelled as `⌊q + 1/2⌋`). -/
def roundCast (q : ℚ) : ℚ := (⌊q + 1/2⌋ : ℤ)

/-- The `uint8` channel type: `ChannelRange` `[0, 255]`, rounding cast. -/
def uint8Spec : ChannelSpec := ⟨0, 255, roundCast⟩

/-- The `int16` channel type: `ChannelRange` `[-32768, 32767]`, rounding
cast. -/
def int16Spec : ChannelSpec := ⟨-32768, 32767, roundCast⟩

/-- The `float32` channel type: the cast back from the accumulator is the
identity; `ChannelRange` for floating channels is `[0, 1]`. -/
def float32Spec : ChannelSpec := ⟨0, 1, id⟩

/-- Clamp `q` into `[lo, hi]`. -/
def clampQ (lo hi q : ℚ) : ℚ := max lo (min hi q)

/-- Modelled from the spec: the
`threshold(summed_weights, 0, ChannelRange::min(), ChannelRange::max())`
call on the alpha channel (Vision Workbench library code absent from
`src/`).  The spec defines the output alpha as
`clamp(summed_weight, channel_min, channel_max)` of the native channel
type. -/
def alphaThreshold (s : ChannelSpec) (w : ℚ) : ℚ := clampQ s.cmin s.cmax w

/-- Modelled from the spec: the per-pixel float division
`sum_weighted_data[i] /= summed_weights`.  Division by a zero weight has
no defined result (the floating `0/0` NaN case the spec leaves open),
modelled as `none`. -/
def fdiv (a b : ℚ) : Option ℚ := if b = 0 then none else some (a / b)

/-- `TileHeader` (the spec's `TileRecord`): metadata of one stored tile
version — grid column, grid row, pyramid level, transaction id. -/
structure TileHeader where
  col : ℤ
  row : ℤ
  level : ℤ
  transaction_id : ℤ
deriving DecidableEq

/-- The alpha (last) channel of buffer `b` at `(x, y)`, where `C` is the
channel count of the pixel type (`CompoundNumChannels<PixelT>::value`). -/
def alphaOf (C : ℕ) (b : PixelBuffer) (x y : ℕ) : ℚ := b.data x y (C - 1)

/-- One iteration of the summation loop of `WeightedAverage::operator()`
(lines 55–61): the current image adds its alpha channel into
`summed_weights` and, for every non-alpha channel `k`, adds
`alpha · value_k` into `sum_weighted_data[k]`. -/
def accumStep (C : ℕ) (acc : (ℕ → ℕ → ℚ) × (ℕ → ℕ → ℕ → ℚ))
    (b : PixelBuffer) : (ℕ → ℕ → ℚ) × (ℕ → ℕ → ℕ → ℚ) :=
  (fun x y => acc.1 x y + alphaOf C b x y,
   fun k x y => acc.2 k x y + alphaOf C b x y * b.data x y k)

/-- The summation loop of `WeightedAverage::operator()` (lines 46–61):
starting from zero-filled accumulator images, fold `accumStep` over the
input images front to back.  The first component is `summed_weights`,
the second is `sum_weighted_data` (indexed by channel, then `x`, `y`). -/
def accumulate (C : ℕ) (input : List PixelBuffer) :
    (ℕ → ℕ → ℚ) × (ℕ → ℕ → ℕ → ℚ) :=
  input.foldl (accumStep C) (fun _ _ => 0, fun _ _ _ => 0)

/-- The output buffer of the reducer.  A channel value is `none` when
the computation produced no defined value (the unguarded `0/0` floating
division followed by a cast of NaN to the native type). -/
structure OutBuffer where
  cols : ℕ
  rows : ℕ
  channels : ℕ
  data : ℕ → ℕ → ℕ → Option ℚ

/-- `WeightedAverage::operator()` (lines 40–74): accumulate the
alpha-weighted channel sums and the summed weights over all input
images, divide each non-alpha channel sum by the summed weights and cast
back to the native channel type, and set the output alpha to the
thresholded summed weights.  The `input_header` argument is ignored (its
parameter name is commented out in the source). -/
def WeightedAverage (s : ChannelSpec) (C : ℕ) (input : List PixelBuffer)
    (_input_header : List TileHeader) : OutBuffer :=
  let acc := accumulate C input
  { cols := input.headI.cols
    rows := input.headI.rows
    channels := C
    data := fun x y c =>
      if c = C - 1 then some (alphaThreshold s (acc.1 x y))
      else (fdiv (acc.2 c x y) (acc.1 x y)).map s.cast }

/-- `BBox2i`: an axis-aligned rectangle of grid-cell coordinates, given
by its minimal corner and its width and height. -/
structure BBox2i where
  minx : ℤ
  miny : ℤ
  width : ℤ
  height : ℤ
deriving DecidableEq

/-- Modelled from the spec: `bbox_tiles(full_region, tw, th)` over the
square region `[0,S)×[0,S)` (the `TileManipulation` library code is
absent from `src/`).  The spec: divide the grid into a coarse tiling of
`tw × th` blocks covering it exactly, clipping the last row/column of
blocks to the grid boundary, in a fixed deterministic (row-major)
order. -/
def bbox_tiles (S tw th : ℕ) : List BBox2i :=
  (List.range ((S + th - 1) / th)).flatMap fun tj =>
    (List.range ((S + tw - 1) / tw)).map fun ti =>
      ⟨(tw * ti : ℕ), (th * tj : ℕ), (min tw (S - tw * ti) : ℕ),
       (min th (S - th * tj) : ℕ)⟩

/-- The work-unit assignment loop of `do_run` (lines 208–215): walk the
units keeping a counter; when the counter reaches `num_jobs` reset it to
zero; take the unit when the counter equals `job_id`; increment the
counter. -/
def assignLoop {α : Type} (job_id num_jobs : ℤ) :
    List α → ℤ → List α
  | [], _ => []
  | c :: rest, count =>
    let count2 := if count = num_jobs then 0 else count
    (if count2 = job_id then [c] else []) ++
      assignLoop job_id num_jobs rest (count2 + 1)

/-- The work-unit assignment of `do_run`: the loop of lines 207–215
started with `count = 0`, producing this job's `mworkunits`. -/
def assign {α : Type} (units : List α) (job_id num_jobs : ℤ) : List α :=
  assignLoop job_id num_jobs units 0

/-- The spec's round-robin rule, written as the spec states it: the unit
at position `i` of the sequence is assigned to job `i % num_jobs`;
`selectIdx` keeps the units whose position (counted from `i0`) satisfies
`position % num_jobs = job_id`, preserving the sequence order. -/
def selectIdx {α : Type} (job_id num_jobs : ℤ) :
    List α → ℤ → List α
  | [], _ => []
  | c :: rest, i =>
    (if i % num_jobs = job_id then [c] else []) ++
      selectIdx job_id num_jobs rest (i + 1)

/-- The spec's assignment function: positions counted from 0. -/
def specAssign {α : Type} (units : List α) (job_id num_jobs : ℤ) :
    List α :=
  selectIdx job_id num_jobs units 0

/-- `VW_PIXEL_*` pixel-format enumeration (the values the dispatch
switch of `do_run` distinguishes, plus others covered by `default`). -/
inductive PixelFormat where
  | VW_PIXEL_SCALAR
  | VW_PIXEL_GRAY
  | VW_PIXEL_GRAYA
  | VW_PIXEL_RGB
  | VW_PIXEL_RGBA
deriving DecidableEq, Fintype

/-- `VW_CHANNEL_*` channel-type enumeration (the values the dispatch
switch of `do_run` distinguishes, plus others covered by `default`). -/
inductive ChannelType where
  | VW_CHANNEL_UINT8
  | VW_CHANNEL_INT16
  | VW_CHANNEL_UINT16
  | VW_CHANNEL_INT32
  | VW_CHANNEL_FLOAT32
  | VW_CHANNEL_FLOAT64
deriving DecidableEq, Fintype

/-- Modelled from the spec: the store (`PlateFile`), an external
collaborator (§6).  `search_by_location` returns the `TileHeader`s at a
cell within the transaction range; `none` models the thrown
`TileNotFoundErr` (`apply_reduce` catches it and keeps an empty list). -/
structure PlateFile where
  num_levels : ℤ
  pixel_format : PixelFormat
  channel_type : ChannelType
  search_by_location : ℤ → ℤ → ℤ → ℤ → ℤ → Option (List TileHeader)

/-- The `Options` record of the tool (the fields the core uses; the CLI
string fields are out of scope per the spec). -/
structure Options where
  level : ℤ
  start_trans_id : ℤ
  end_trans_id : ℤ
  transaction_id : ℤ
  job_id : ℤ
  num_jobs : ℤ

/-- One observable store call made by `apply_reduce` at a cell. -/
inductive StoreEvent where
  | query (col row : ℤ)
  | readTile (col row tid : ℤ)
  | writeRequest
  | writeUpdate (col row tid : ℤ)
  | writeComplete
deriving DecidableEq

/-- Whether an event is one of the three write-protocol calls
(`write_request`, `write_update`, `write_complete`). -/
def isWriteEvent : StoreEvent → Bool
  | StoreEvent.writeRequest => true
  | StoreEvent.writeUpdate _ _ _ => true
  | StoreEvent.writeComplete => true
  | _ => false

/-- The per-cell body of `apply_reduce` (lines 148–183), as the trace of
store calls it makes: query the cell (a thrown `TileNotFoundErr` leaves
`tile_records` empty); if no records were found, `continue` with no
further call; otherwise read every returned tile, reduce, and commit via
`write_request` / `write_update` / `write_complete`. -/
def processCell (pf : PlateFile) (opt : Options) (col row : ℤ) :
    List StoreEvent :=
  let tile_records :=
    (pf.search_by_location col row opt.level opt.start_trans_id
      opt.end_trans_id).getD []
  if tile_records.length = 0 then [StoreEvent.query col row]
  else
    StoreEvent.query col row ::
      (tile_records.map fun t => StoreEvent.readTile col row t.transaction_id)
      ++ [StoreEvent.writeRequest,
          StoreEvent.writeUpdate col row opt.transaction_id,
          StoreEvent.writeComplete]

/-- The cells of one work unit, in the order the nested loops of
`apply_reduce` (lines 146–149) visit them: `location = min + (ix, iy)`
for `ix` in `[0, width)` (outer) and `iy` in `[0, height)` (inner). -/
def cellsOf (b : BBox2i) : List (ℤ × ℤ) :=
  (List.range b.width.toNat).flatMap fun ix =>
    (List.range b.height.toNat).map fun iy =>
      (b.minx + (ix : ℕ), b.miny + (iy : ℕ))

/-- Process a list of cells in order, concatenating their traces. -/
def processCells (pf : PlateFile) (opt : Options)
    (cells : List (ℤ × ℤ)) : List StoreEvent :=
  cells.flatMap fun c => processCell pf opt c.1 c.2

/-- `apply_reduce` (lines 137–188) as the trace of store calls it makes
over its work units. -/
def apply_reduce (pf : PlateFile) (opt : Options)
    (workunits : List BBox2i) : List StoreEvent :=
  workunits.flatMap fun w => processCells pf opt (cellsOf w)

/-- The errors `do_run` can throw: `ArgumentErr` for a level outside
`[0, num_levels)`, `InputErr` for an unsupported pixel-format /
channel-type combination. -/
inductive RunError where
  | ArgumentErr
  | InputErr
deriving DecidableEq

/-- The pixel-format / channel-type combinations for which the nested
dispatch switch of `do_run` (lines 219–250) has a case. -/
def supported_format : PixelFormat → ChannelType → Bool
  | PixelFormat.VW_PIXEL_GRAYA, ChannelType.VW_CHANNEL_UINT8 => true
  | PixelFormat.VW_PIXEL_GRAYA, ChannelType.VW_CHANNEL_INT16 => true
  | PixelFormat.VW_PIXEL_GRAYA, ChannelType.VW_CHANNEL_FLOAT32 => true
  | PixelFormat.VW_PIXEL_RGBA, ChannelType.VW_CHANNEL_UINT8 => true
  | _, _ => false

/-- `do_run` (lines 191–251) as a trace computation: reject an invalid
level (`ArgumentErr`); partition the `2^level`-sized grid with
`bbox_tiles(full_region, 4, 4)`; assign this job's work units; then
dispatch on the store's pixel format and channel type, running
`apply_reduce` for a supported combination and throwing `InputErr`
(before any cell is queried) otherwise. -/
def do_run (pf : PlateFile) (opt : Options) :
    Except RunError (List StoreEvent) :=
  if opt.level < 0 ∨ pf.num_levels ≤ opt.level then
    Except.error RunError.ArgumentErr
  else
    let region_size : ℕ := 2 ^ opt.level.toNat
    let workunits := bbox_tiles region_size 4 4
    let mworkunits := assign workunits opt.job_id opt.num_jobs
    match pf.pixel_format, pf.channel_type with
    | PixelFormat.VW_PIXEL_GRAYA, ChannelType.VW_CHANNEL_UINT8 =>
      Except.ok (apply_reduce pf opt mworkunits)
    | PixelFormat.VW_PIXEL_GRAYA, ChannelType.VW_CHANNEL_INT16 =>
      Except.ok (apply_reduce pf opt mworkunits)
    | PixelFormat.VW_PIXEL_GRAYA, ChannelType.VW_CHANNEL_FLOAT32 =>
      Except.ok (apply_reduce pf opt mworkunits)
    | PixelFormat.VW_PIXEL_RGBA, ChannelType.VW_CHANNEL_UINT8 =>
      Except.ok (apply_reduce pf opt mworkunits)
    | _, _ => Except.error RunError.InputErr

/-- `summed_weights` at `(x, y)` as a closed-form sum: the sum of all
input alphas at that location. -/
def summedWeights (C : ℕ) (input : List PixelBuffer) (x y : ℕ) : ℚ :=
  (input.map fun b => alphaOf C b x y).sum

/-- `sum_weighted_data[k]` at `(x, y)` as a closed-form sum: the sum
over inputs of `alpha · value_k` at that location. -/
def weightedSum (C : ℕ) (input : List PixelBuffer) (k x y : ℕ) : ℚ :=
  (input.map fun b => alphaOf C b x y * b.data x y k).sum

/-- A single-pixel 2-channel (gray+alpha) 8-bit buffer with channel-0
value 200 and alpha 100 (the spec's worked example, first input). -/
def bufA : PixelBuffer :=
  ⟨1, 1, 2, fun _ _ c => if c = 0 then 200 else 100⟩

/-- A single-pixel 2-channel (gray+alpha) 8-bit buffer with channel-0
value 0 and alpha 50 (the spec's worked example, second input). -/
def bufB : PixelBuffer :=
  ⟨1, 1, 2, fun _ _ c => if c = 0 then 0 else 50⟩

/-- A single-pixel 2-channel buffer with channel-0 value 200 and alpha 0
(the zero-coverage edge case). -/
def bufZ : PixelBuffer :=
  ⟨1, 1, 2, fun _ _ c => if c = 0 then 200 else 0⟩

/-- A store whose location query always signals not-found (throws
`TileNotFoundErr`), declaring gray+alpha `uint8` data on a two-level
pyramid. -/
def emptyStore : PlateFile :=
  ⟨2, PixelFormat.VW_PIXEL_GRAYA, ChannelType.VW_CHANNEL_UINT8,
   fun _ _ _ _ _ => none⟩

/-- A store declaring the unsupported combination RGB+alpha with
`float64` channels (never found and never read). -/
def badFormatStore : PlateFile :=
  ⟨2, PixelFormat.VW_PIXEL_RGBA, ChannelType.VW_CHANNEL_FLOAT64,
   fun _ _ _ _ _ => none⟩

/-- A concrete `Options` record: level 1, transaction range `[0, 100]`,
output transaction 2000, job 0 of 1. -/
def optExample : Options := ⟨1, 0, 100, 2000, 0, 1⟩

theorem accumStep_foldl_fst (C : ℕ) (input : List PixelBuffer) :
    ∀ (acc : (ℕ → ℕ → ℚ) × (ℕ → ℕ → ℕ → ℚ)) (x y : ℕ),
      (input.foldl (accumStep C) acc).1 x y =
        acc.1 x y + summedWeights C input x y := by
  induction input with
  | nil => intro acc x y; simp [summedWeights]
  | cons b rest ih =>
    intro acc x y
    rw [List.foldl_cons, ih]
    simp only [accumStep, summedWeights, List.map_cons, List.sum_cons]
    ring

theorem accumStep_foldl_snd (C : ℕ) (input : List PixelBuffer) :
    ∀ (acc : (ℕ → ℕ → ℚ) × (ℕ → ℕ → ℕ → ℚ)) (k x y : ℕ),
      (input.foldl (accumStep C) acc).2 k x y =
        acc.2 k x y + weightedSum C input k x y := by
  induction input with
  | nil => intro acc k x y; simp [weightedSum]
  | cons b rest ih =>
    intro acc k x y
    rw [List.foldl_cons, ih]
    simp only [accumStep, weightedSum, List.map_cons, List.sum_cons]
    ring

theorem accumulate_fst (C : ℕ) (input : List PixelBuffer) (x y : ℕ) :
    (accumulate C input).1 x y = summedWeights C input x y := by
  rw [accumulate, accumStep_foldl_fst]
  simp

theorem accumulate_snd (C : ℕ) (input : List PixelBuffer) (k x y : ℕ) :
    (accumulate C input).2 k x y = weightedSum C input k x y := by
  rw [accumulate, accumStep_foldl_snd]
  simp

/-- The output alpha channel of the reducer, in closed form. -/
theorem WeightedAverage_data_alpha (s : ChannelSpec) (C : ℕ)
    (input : List PixelBuffer) (hdr : List TileHeader) (x y : ℕ) :
    (WeightedAverage s C input hdr).data x y (C - 1) =
      some (alphaThreshold s (summedWeights C input x y)) := by
  simp [WeightedAverage, accumulate_fst]

/-- A non-alpha output channel of the reducer, in closed form. -/
theorem WeightedAverage_data_channel (s : ChannelSpec) (C : ℕ)
    (input : List PixelBuffer) (hdr : List TileHeader) (k x y : ℕ)
    (hk : k < C - 1) :
    (WeightedAverage s C input hdr).data x y k =
      (fdiv (weightedSum C input k x y) (summedWeights C input x y)).map
        s.cast := by
  simp [WeightedAverage, accumulate_fst, accumulate_snd, Nat.ne_of_lt hk]

theorem assignLoop_reset {α : Type} (j n : ℤ) (us : List α) :
    assignLoop j n us n = assignLoop j n us 0 := by
  cases us with
  | nil => rfl
  | cons c rest =>
    show (if (if (n:ℤ) = n then (0:ℤ) else n) = j then [c] else []) ++
        assignLoop j n rest ((if (n:ℤ) = n then (0:ℤ) else n) + 1) =
      (if (if (0:ℤ) = n then (0:ℤ) else 0) = j then [c] else []) ++
        assignLoop j n rest ((if (0:ℤ) = n then (0:ℤ) else 0) + 1)
    simp

theorem selectIdx_congr_mod {α : Type} (j n : ℤ) :
    ∀ (us : List α) (c c' : ℤ), c % n = c' % n →
      selectIdx j n us c = selectIdx j n us c' := by
  intro us
  induction us with
  | nil => intro c c' _; rfl
  | cons a rest ih =>
    intro c c' h
    show (if c % n = j then [a] else []) ++ selectIdx j n rest (c + 1) =
      (if c' % n = j then [a] else []) ++ selectIdx j n rest (c' + 1)
    rw [h, ih (c + 1) (c' + 1) (by rw [Int.add_emod, h, ← Int.add_emod])]

theorem assignLoop_eq_selectIdx {α : Type} (j n : ℤ) (hn : 0 < n) :
    ∀ (us : List α) (count : ℤ), 0 ≤ count → count < n →
      assignLoop j n us count = selectIdx j n us count := by
  intro us
  induction us with
  | nil => intro count _ _; rfl
  | cons c rest ih =>
    intro count h0 hlt
    show (if (if count = n then (0:ℤ) else count) = j then [c] else []) ++
        assignLoop j n rest ((if count = n then (0:ℤ) else count) + 1) =
      (if count % n = j then [c] else []) ++ selectIdx j n rest (count + 1)
    rw [if_neg (by omega : ¬ count = n), Int.emod_eq_of_lt h0 hlt]
    by_cases hsucc : count + 1 < n
    · rw [ih (count + 1) (by omega) hsucc]
    · have hc : count + 1 = n := by omega
      have h1 : assignLoop j n rest (count + 1) = assignLoop j n rest n := by
        rw [hc]
      rw [h1, assignLoop_reset, ih 0 le_rfl hn,
        selectIdx_congr_mod j n rest 0 (count + 1)
          (by rw [hc, Int.emod_self, Int.zero_emod])]

theorem assignLoop_out_of_range {α : Type} (j n : ℤ) (hn : 0 < n)
    (hout : j < 0 ∨ n ≤ j) :
    ∀ (us : List α) (count : ℤ), 0 ≤ count → count ≤ n →
      assignLoop j n us count = [] := by
  intro us
  induction us with
  | nil => intro count _ _; rfl
  | cons c rest ih =>
    intro count h0 hle
    show (if (if count = n then (0:ℤ) else count) = j then [c] else []) ++
        assignLoop j n rest ((if count = n then (0:ℤ) else count) + 1) = []
    have h2 : 0 ≤ (if count = n then (0:ℤ) else count) ∧
        (if count = n then (0:ℤ) else count) < n := by
      by_cases hcn : count = n <;> simp [hcn] <;> omega
    rw [if_neg (by omega : ¬ (if count = n then (0:ℤ) else count) = j),
      ih _ (by omega) (by omega), List.append_nil]

theorem mem_selectIdx {α : Type} (j n : ℤ) :
    ∀ (us : List α) (c : ℤ) (u : α),
      u ∈ selectIdx j n us c ↔
        ∃ i : ℕ, us[i]? = some u ∧ (c + i) % n = j := by
  intro us
  induction us with
  | nil =>
    intro c u
    show u ∈ ([] : List α) ↔ _
    simp
  | cons a rest ih =>
    intro c u
    show u ∈ (if c % n = j then [a] else []) ++ selectIdx j n rest (c + 1) ↔ _
    rw [List.mem_append, ih (c + 1) u]
    constructor
    · rintro (hmem | ⟨i, hget, hmod⟩)
      · refine ⟨0, ?_, ?_⟩
        · by_cases hc : c % n = j
          · simp only [hc, if_pos] at hmem
            simp only [List.mem_singleton] at hmem
            simp [hmem]
          · simp [hc] at hmem
        · by_cases hc : c % n = j
          · simpa using hc
          · simp [hc] at hmem
      · exact ⟨i + 1, by simpa using hget, by rw [show c + (↑(i + 1) : ℤ) = c + 1 + i by push_cast; ring]; exact hmod⟩
    · rintro ⟨i, hget, hmod⟩
      cases i with
      | zero =>
        left
        rw [List.getElem?_cons_zero, Option.some_inj] at hget
        have : c % n = j := by simpa using hmod
        simp [this, hget]
      | succ i' =>
        right
        refine ⟨i', by simpa using hget, ?_⟩
        rw [show c + 1 + (i' : ℤ) = c + (↑(i' + 1) : ℤ) by push_cast; ring]
        exact hmod

theorem bbox_tiles_nodup (S tw th : ℕ) (htw : 0 < tw) (hth : 0 < th) :
    (bbox_tiles S tw th).Nodup := by
  unfold bbox_tiles
  rw [List.nodup_flatMap]
  constructor
  · intro tj _
    refine List.Nodup.map ?_ (List.nodup_range _)
    intro a b hab
    have h1 : ((tw * a : ℕ) : ℤ) = ((tw * b : ℕ) : ℤ) :=
      congrArg BBox2i.minx hab
    have h2 : tw * a = tw * b := by exact_mod_cast h1
    exact Nat.eq_of_mul_eq_mul_left htw h2
  · refine (List.pairwise_lt_range _).imp ?_
    intro a b hab u hu1 hu2
    rw [List.mem_map] at hu1 hu2
    obtain ⟨t1, _, h1⟩ := hu1
    obtain ⟨t2, _, h2⟩ := hu2
    have hy1 : u.miny = ((th * a : ℕ) : ℤ) := by rw [← h1]
    have hy2 : u.miny = ((th * b : ℕ) : ℤ) := by rw [← h2]
    have : th * a = th * b := by
      have := hy1 ▸ hy2
      exact_mod_cast this
    have : a = b := Nat.eq_of_mul_eq_mul_left hth this
    omega

theorem mem_assign_iff {α : Type} (units : List α) (j n : ℤ)
    (hn : 0 < n) (u : α) :
    u ∈ assign units j n ↔
      ∃ i : ℕ, units[i]? = some u ∧ (i : ℤ) % n = j := by
  unfold assign
  rw [assignLoop_eq_selectIdx j n hn units 0 le_rfl hn,
    mem_selectIdx j n units 0 u]
  constructor
  · rintro ⟨i, hget, hmod⟩
    exact ⟨i, hget, by simpa using hmod⟩
  · rintro ⟨i, hget, hmod⟩
    exact ⟨i, hget, by simpa using hmod⟩

/-- C4: for every sequence of work units and every `(job_id, num_jobs)`
with `num_jobs ≥ 1` and `0 ≤ job_id < num_jobs`, the assignment loop of
`do_run` assigns the unit at position `i` of the sequence to job
`i % num_jobs`, preserving the sequence order within each job's subset:
it equals the spec's round-robin selection function `specAssign`. -/
theorem assign_round_robin {α : Type} (units : List α)
    (job_id num_jobs : ℤ) (hn : 1 ≤ num_jobs) (h0 : 0 ≤ job_id)
    (hj : job_id < num_jobs) :
    assign units job_id num_jobs = specAssign units job_id num_jobs :=
  assignLoop_eq_selectIdx job_id num_jobs (by omega) units 0 le_rfl
    (by omega)

/-- Witness for C4: five units split between two jobs; job 1 gets the
units at positions 1 and 3, in order. -/
theorem assign_round_robin_witness :
    (1 : ℤ) ≤ 2 ∧ (0 : ℤ) ≤ 1 ∧ (1 : ℤ) < 2 ∧
      assign ([10, 20, 30, 40, 50] : List ℕ) 1 2 =
        specAssign ([10, 20, 30, 40, 50] : List ℕ) 1 2 ∧
      assign ([10, 20, 30, 40, 50] : List ℕ) 1 2 = [20, 40] :=
  ⟨by norm_num, by norm_num, by norm_num,
   assign_round_robin ([10, 20, 30, 40, 50] : List ℕ) 1 2 (by norm_num)
     (by norm_num) (by norm_num),
   by decide⟩

/-- C9: for every `num_jobs ≥ 1` and every `job_id` outside
`[0, num_jobs)` — `job_id < 0` or `job_id ≥ num_jobs` — the assignment
loop of `do_run` yields the empty list of work units: the counter only
takes values in `[0, num_jobs)`, so it never equals such a `job_id`. -/
theorem assign_out_of_range_empty {α : Type} (units : List α)
    (job_id num_jobs : ℤ) (hn : 1 ≤ num_jobs)
    (hout : job_id < 0 ∨ num_jobs ≤ job_id) :
    assign units job_id num_jobs = [] :=
  assignLoop_out_of_range job_id num_jobs (by omega) hout units 0 le_rfl
    (by omega)

/-- Witness for C9: with two jobs, job 5 and job -1 both receive no
units. -/
theorem assign_out_of_range_empty_witness :
    (1 : ℤ) ≤ 2 ∧ ((5 : ℤ) < 0 ∨ (2 : ℤ) ≤ 5) ∧
      assign ([1, 2, 3] : List ℕ) 5 2 = [] ∧
      assign ([1, 2, 3] : List ℕ) (-1) 2 = [] :=
  ⟨by norm_num, Or.inr (by norm_num),
   assign_out_of_range_empty ([1, 2, 3] : List ℕ) 5 2 (by norm_num)
     (Or.inr (by norm_num)),
   assign_out_of_range_empty ([1, 2, 3] : List ℕ) (-1) 2 (by norm_num)
     (Or.inl (by norm_num))⟩

/-- C3: for every grid size `S` and every `num_jobs ≥ 1`, the union over
`job_id ∈ [0, num_jobs)` of the work-unit lists assigned by
`assign (bbox_tiles S 4 4)` equals the full partition produced by
`bbox_tiles`, and the assignments of two distinct `job_id`s in range are
disjoint. -/
theorem partition_assign_cover (S : ℕ) (num_jobs : ℤ)
    (hn : 1 ≤ num_jobs) :
    (∀ u : BBox2i, u ∈ bbox_tiles S 4 4 ↔
      ∃ j : ℤ, 0 ≤ j ∧ j < num_jobs ∧
        u ∈ assign (bbox_tiles S 4 4) j num_jobs) ∧
    (∀ j1 j2 : ℤ, 0 ≤ j1 → j1 < num_jobs → 0 ≤ j2 → j2 < num_jobs →
      j1 ≠ j2 → ∀ u : BBox2i,
        u ∈ assign (bbox_tiles S 4 4) j1 num_jobs →
        u ∉ assign (bbox_tiles S 4 4) j2 num_jobs) := by
  have hpos : (0 : ℤ) < num_jobs := by omega
  have hnodup := bbox_tiles_nodup S 4 4 (by norm_num) (by norm_num)
  constructor
  · intro u
    constructor
    · intro hu
      obtain ⟨i, hget⟩ := List.mem_iff_getElem?.mp hu
      refine ⟨(i : ℤ) % num_jobs, Int.emod_nonneg _ (by omega),
        Int.emod_lt_of_pos _ hpos, ?_⟩
      rw [mem_assign_iff _ _ _ hpos u]
      exact ⟨i, hget, rfl⟩
    · rintro ⟨j, _, _, hmem⟩
      rw [mem_assign_iff _ _ _ hpos u] at hmem
      obtain ⟨i, hget, _⟩ := hmem
      exact List.mem_iff_getElem?.mpr ⟨i, hget⟩
  · intro j1 j2 _ _ _ _ hne u hmem1 hmem2
    rw [mem_assign_iff _ _ _ hpos u] at hmem1 hmem2
    obtain ⟨i1, hget1, hmod1⟩ := hmem1
    obtain ⟨i2, hget2, hmod2⟩ := hmem2
    have hlen : i1 < (bbox_tiles S 4 4).length := by
      obtain ⟨h, _⟩ := List.getElem?_eq_some_iff.mp hget1
      exact h
    have : i1 = i2 :=
      List.getElem?_inj hlen hnodup (hget1.trans hget2.symm)
    exact hne (hmod1 ▸ this ▸ hmod2.symm ▸ rfl)

/-- Witness for C3: the 5×5 grid split between two jobs; the union and
disjointness statements instantiated at `S = 5`, `num_jobs = 2`. -/
theorem partition_assign_cover_witness :
    (1 : ℤ) ≤ 2 ∧
    (∀ u : BBox2i, u ∈ bbox_tiles 5 4 4 ↔
      ∃ j : ℤ, 0 ≤ j ∧ j < 2 ∧ u ∈ assign (bbox_tiles 5 4 4) j 2) ∧
    (∀ j1 j2 : ℤ, 0 ≤ j1 → j1 < 2 → 0 ≤ j2 → j2 < 2 → j1 ≠ j2 →
      ∀ u : BBox2i, u ∈ assign (bbox_tiles 5 4 4) j1 2 →
        u ∉ assign (bbox_tiles 5 4 4) j2 2) :=
  ⟨by norm_num, (partition_assign_cover 5 2 (by norm_num)).1,
   (partition_assign_cover 5 2 (by norm_num)).2⟩

/-- C1: for a nonempty list of input buffers of identical width and
height, a non-alpha channel `k` and a location `(x, y)` where the summed
alpha weight is positive, the Weighted-Average reducer's output channel
`k` equals the sum of `alpha_i · value_i,k` over the inputs divided by
the sum of the `alpha_i`, computed in the accumulator and cast back to
the native channel type. -/
theorem WeightedAverage_channel_formula (s : ChannelSpec) (C : ℕ)
    (input : List PixelBuffer) (hdr : List TileHeader)
    (hne : input ≠ [])
    (hdim : ∀ b ∈ input,
      b.cols = input.headI.cols ∧ b.rows = input.headI.rows)
    (k x y : ℕ) (hk : k < C - 1)
    (hw : 0 < summedWeights C input x y) :
    (WeightedAverage s C input hdr).data x y k =
      some (s.cast
        (weightedSum C input k x y / summedWeights C input x y)) := by
  rw [WeightedAverage_data_channel s C input hdr k x y hk]
  unfold fdiv
  rw [if_neg (ne_of_gt hw)]
  rfl

/-- Witness for C1: the spec's worked example — two single-pixel 8-bit
inputs with alphas `{100, 50}` and channel-0 values `{200, 0}`; the
output channel 0 is `round(20000 / 150) = 133`. -/
theorem WeightedAverage_channel_formula_witness :
    ([bufA, bufB] ≠ ([] : List PixelBuffer)) ∧
    (∀ b ∈ [bufA, bufB],
      b.cols = ([bufA, bufB] : List PixelBuffer).headI.cols ∧
      b.rows = ([bufA, bufB] : List PixelBuffer).headI.rows) ∧
    (0 : ℕ) < 2 - 1 ∧
    0 < summedWeights 2 [bufA, bufB] 0 0 ∧
    (WeightedAverage uint8Spec 2 [bufA, bufB] []).data 0 0 0 =
      some 133 := by
  have hne : [bufA, bufB] ≠ ([] : List PixelBuffer) := by simp
  have hdim : ∀ b ∈ [bufA, bufB],
      b.cols = ([bufA, bufB] : List PixelBuffer).headI.cols ∧
      b.rows = ([bufA, bufB] : List PixelBuffer).headI.rows := by
    intro b hb
    rcases List.mem_cons.mp hb with h | hb
    · subst h; exact ⟨rfl, rfl⟩
    rcases List.mem_cons.mp hb with h | hb
    · subst h; exact ⟨rfl, rfl⟩
    · simp at hb
  have hw : 0 < summedWeights 2 [bufA, bufB] 0 0 := by
    norm_num [summedWeights, alphaOf, bufA, bufB]
  have h := WeightedAverage_channel_formula uint8Spec 2 [bufA, bufB] []
    hne hdim 0 0 0 (by norm_num) hw
  refine ⟨hne, hdim, by norm_num, hw, ?_⟩
  rw [h]
  norm_num [weightedSum, summedWeights, alphaOf, bufA, bufB, uint8Spec,
    roundCast]

/-- C2: for every nonempty input list and location, the Weighted-Average
reducer's output alpha equals the sum of all input alphas clamped to the
native channel range (coverage accumulates and saturates rather than
averages). -/
theorem WeightedAverage_alpha_clamp (s : ChannelSpec) (C : ℕ)
    (input : List PixelBuffer) (hdr : List TileHeader)
    (hne : input ≠ []) (x y : ℕ) :
    (WeightedAverage s C input hdr).data x y (C - 1) =
      some (clampQ s.cmin s.cmax (summedWeights C input x y)) :=
  WeightedAverage_data_alpha s C input hdr x y

/-- Witness for C2: for the two 8-bit inputs with alphas 100 and 50 the
output alpha is `clamp(150, 0, 255) = 150`. -/
theorem WeightedAverage_alpha_clamp_witness :
    ([bufA, bufB] ≠ ([] : List PixelBuffer)) ∧
    (WeightedAverage uint8Spec 2 [bufA, bufB] []).data 0 0 1 =
      some 150 := by
  have hne : [bufA, bufB] ≠ ([] : List PixelBuffer) := by simp
  have h := WeightedAverage_alpha_clamp uint8Spec 2 [bufA, bufB] []
    hne 0 0
  refine ⟨hne, ?_⟩
  have h1 : (2 : ℕ) - 1 = 1 := by norm_num
  rw [h1] at h
  rw [h]
  norm_num [clampQ, summedWeights, alphaOf, bufA, bufB, uint8Spec]

/-- C5 counterexample: at a pixel where every input alpha is zero the
reducer does NOT produce a defined value for the non-alpha channel: with
one single-pixel input of value 200 and alpha 0, output channel 0 is the
undefined result of the unguarded division `0 / 0` (`none`, the floating
NaN cast to the native type), refuting the claim that the division is
guarded. -/
theorem zero_alpha_division_counterexample :
    (WeightedAverage uint8Spec 2 [bufZ] []).data 0 0 0 = none := by
  rw [WeightedAverage_data_channel uint8Spec 2 [bufZ] [] 0 0 0
    (by norm_num)]
  norm_num [fdiv, weightedSum, summedWeights, alphaOf, bufZ]

/-- C5 (amended): at every pixel where all input alphas are zero, the
summed weight is zero and the division of lines 64–65 is unguarded: the
non-alpha output channels have no defined value (floating `0/0` NaN cast
to the native type), modelled as `none`. -/
theorem zero_alpha_no_defined_value (s : ChannelSpec) (C : ℕ)
    (input : List PixelBuffer) (hdr : List TileHeader) (x y k : ℕ)
    (hk : k < C - 1) (hz : ∀ b ∈ input, alphaOf C b x y = 0) :
    (WeightedAverage s C input hdr).data x y k = none := by
  have hw : summedWeights C input x y = 0 := by
    unfold summedWeights
    refine List.sum_eq_zero ?_
    intro q hq
    rw [List.mem_map] at hq
    obtain ⟨b, hb, rfl⟩ := hq
    exact hz b hb
  rw [WeightedAverage_data_channel s C input hdr k x y hk]
  unfold fdiv
  rw [if_pos hw]
  rfl

/-- Witness for C5 (amended): the one-input zero-alpha example. -/
theorem zero_alpha_no_defined_value_witness :
    (0 : ℕ) < 2 - 1 ∧ (∀ b ∈ [bufZ], alphaOf 2 b 0 0 = 0) ∧
    (WeightedAverage uint8Spec 2 [bufZ] []).data 0 0 0 = none := by
  have hz : ∀ b ∈ [bufZ], alphaOf 2 b 0 0 = 0 := by
    intro b hb
    rcases List.mem_cons.mp hb with h | hb
    · subst h; norm_num [alphaOf, bufZ]
    · simp at hb
  exact ⟨by norm_num, hz,
    zero_alpha_no_defined_value uint8Spec 2 [bufZ] [] 0 0 0
      (by norm_num) hz⟩

/-- C8: reducing a one-element input list whose buffer holds
native-representable values (the cast back fixes them) and whose alpha
is nonzero at the pixel reproduces the buffer's non-alpha channels
unchanged, and the output alpha is the input alpha clamped to the native
range. -/
theorem single_input_identity (s : ChannelSpec) (C : ℕ)
    (b : PixelBuffer) (hdr : List TileHeader)
    (hfix : ∀ x y k, k < C - 1 → s.cast (b.data x y k) = b.data x y k)
    (x y k : ℕ) (hk : k < C - 1) (ha : alphaOf C b x y ≠ 0) :
    (WeightedAverage s C [b] hdr).data x y k = some (b.data x y k) ∧
    (WeightedAverage s C [b] hdr).data x y (C - 1) =
      some (clampQ s.cmin s.cmax (alphaOf C b x y)) := by
  constructor
  · rw [WeightedAverage_data_channel s C [b] hdr k x y hk]
    have hsw : summedWeights C [b] x y = alphaOf C b x y := by
      simp [summedWeights]
    have hws : weightedSum C [b] k x y =
        alphaOf C b x y * b.data x y k := by
      simp [weightedSum]
    rw [hsw, hws]
    unfold fdiv
    rw [if_neg ha, mul_div_cancel_left₀ _ ha]
    simp [hfix x y k hk]
  · rw [WeightedAverage_data_alpha]
    have hsw : summedWeights C [b] x y = alphaOf C b x y := by
      simp [summedWeights]
    rw [hsw]
    rfl

/-- Witness for C8: the single 8-bit input with value 200 and alpha 100
is reproduced: output channel 0 is 200, output alpha is
`clamp(100, 0, 255) = 100`. -/
theorem single_input_identity_witness :
    (∀ x y k, k < 2 - 1 →
      uint8Spec.cast (bufA.data x y k) = bufA.data x y k) ∧
    (0 : ℕ) < 2 - 1 ∧ alphaOf 2 bufA 0 0 ≠ 0 ∧
    (WeightedAverage uint8Spec 2 [bufA] []).data 0 0 0 = some 200 ∧
    (WeightedAverage uint8Spec 2 [bufA] []).data 0 0 1 = some 100 := by
  have hfix : ∀ x y k, k < 2 - 1 →
      uint8Spec.cast (bufA.data x y k) = bufA.data x y k := by
    intro x y k hk
    have hk0 : k = 0 := by omega
    subst hk0
    norm_num [bufA, uint8Spec, roundCast]
  have ha : alphaOf 2 bufA 0 0 ≠ 0 := by
    norm_num [alphaOf, bufA]
  obtain ⟨h1, h2⟩ := single_input_identity uint8Spec 2 bufA [] hfix
    0 0 0 (by norm_num) ha
  refine ⟨hfix, by norm_num, ha, ?_, ?_⟩
  · rw [h1]
    norm_num [bufA]
  · have h21 : (2 : ℕ) - 1 = 1 := by norm_num
    rw [h21] at h2
    rw [h2]
    norm_num [clampQ, alphaOf, bufA, uint8Spec]

/-- C10: the `WeightedAverage` reducer's output depends only on the
input pixel buffers: the `input_header` metadata argument (whose
parameter name is commented out in the source) does not influence the
result. -/
theorem WeightedAverage_header_independent (s : ChannelSpec) (C : ℕ)
    (input : List PixelBuffer) (h1 h2 : List TileHeader) :
    WeightedAverage s C input h1 = WeightedAverage s C input h2 := rfl

/-- C6: for a grid cell whose location query returns zero tile records —
either an empty result or the store throwing its not-found signal
(modelled by `none`) — `apply_reduce` performs no write call for that
cell (none of `write_request`, `write_update`, `write_complete`), treats
it as no error (the cell's trace is just the query), and proceeds to the
next cell. -/
theorem empty_query_skip (pf : PlateFile) (opt : Options) (col row : ℤ)
    (h : pf.search_by_location col row opt.level opt.start_trans_id
          opt.end_trans_id = none ∨
        pf.search_by_location col row opt.level opt.start_trans_id
          opt.end_trans_id = some []) :
    (processCell pf opt col row).filter isWriteEvent = [] ∧
    processCell pf opt col row = [StoreEvent.query col row] ∧
    ∀ rest : List (ℤ × ℤ),
      processCells pf opt ((col, row) :: rest) =
        StoreEvent.query col row :: processCells pf opt rest := by
  have hrec : (pf.search_by_location col row opt.level opt.start_trans_id
      opt.end_trans_id).getD [] = ([] : List TileHeader) := by
    rcases h with h | h <;> rw [h] <;> rfl
  have hcell : processCell pf opt col row = [StoreEvent.query col row] := by
    unfold processCell
    rw [hrec]
    rfl
  refine ⟨by rw [hcell]; rfl, hcell, ?_⟩
  intro rest
  unfold processCells
  rw [List.flatMap_cons]
  show processCell pf opt col row ++ _ = _
  rw [hcell]
  rfl

/-- Witness for C6: a store whose query always throws the not-found
signal; the cell `(0, 0)` produces only its query event and processing
continues with the remaining cells. -/
theorem empty_query_skip_witness :
    (emptyStore.search_by_location 0 0 optExample.level
        optExample.start_trans_id optExample.end_trans_id = none ∨
      emptyStore.search_by_location 0 0 optExample.level
        optExample.start_trans_id optExample.end_trans_id = some []) ∧
    (processCell emptyStore optExample 0 0).filter isWriteEvent = [] ∧
    processCell emptyStore optExample 0 0 = [StoreEvent.query 0 0] ∧
    ∀ rest : List (ℤ × ℤ),
      processCells emptyStore optExample ((0, 0) :: rest) =
        StoreEvent.query 0 0 :: processCells emptyStore optExample rest := by
  have h : emptyStore.search_by_location 0 0 optExample.level
        optExample.start_trans_id optExample.end_trans_id = none ∨
      emptyStore.search_by_location 0 0 optExample.level
        optExample.start_trans_id optExample.end_trans_id = some [] :=
    Or.inl rfl
  exact ⟨h, empty_query_skip emptyStore optExample 0 0 h⟩

/-- C7: the supported pixel-format/channel-type combinations form the
fixed table {gray+alpha with uint8/int16/float32, RGB+alpha with uint8};
for a store declaring any other combination (and a valid level) `do_run`
fails with the unsupported-format error (`InputErr`) in the dispatch
switch, before `apply_reduce` runs — so before any cell is queried or
any work unit is processed. -/
theorem unsupported_format_rejected (pf : PlateFile) (opt : Options)
    (hlevel : 0 ≤ opt.level ∧ opt.level < pf.num_levels)
    (hunsup : supported_format pf.pixel_format pf.channel_type = false) :
    do_run pf opt = Except.error RunError.InputErr ∧
    (∀ f c, supported_format f c = true ↔
      (f = PixelFormat.VW_PIXEL_GRAYA ∧
        (c = ChannelType.VW_CHANNEL_UINT8 ∨
         c = ChannelType.VW_CHANNEL_INT16 ∨
         c = ChannelType.VW_CHANNEL_FLOAT32)) ∨
      (f = PixelFormat.VW_PIXEL_RGBA ∧
        c = ChannelType.VW_CHANNEL_UINT8)) := by
  constructor
  · unfold do_run
    rw [if_neg (by omega : ¬ (opt.level < 0 ∨ pf.num_levels ≤ opt.level))]
    cases hpf : pf.pixel_format <;> cases hct : pf.channel_type <;>
      simp_all [supported_format]
  · decide

/-- Witness for C7: a store declaring RGB+alpha with `float64` channels
on a two-level pyramid; the run at level 1 fails with `InputErr`. -/
theorem unsupported_format_rejected_witness :
    ((0 : ℤ) ≤ optExample.level ∧
      optExample.level < badFormatStore.num_levels) ∧
    supported_format badFormatStore.pixel_format
      badFormatStore.channel_type = false ∧
    do_run badFormatStore optExample = Except.error RunError.InputErr :=
  ⟨⟨by norm_num [optExample], by norm_num [optExample, badFormatStore]⟩,
   rfl,
   (unsupported_format_rejected badFormatStore optExample
     ⟨by norm_num [optExample], by norm_num [optExample, badFormatStore]⟩
     rfl).1⟩

end PlateReduce
